import Mathlib

/-!
Verification development for the eywa spiking-network repository.

The Rust sources are shallowly embedded: f32 quantities are modelled as
rationals (reals for the sigmoid strength, whose curve uses exp), machine
integers as Nat or Int, the thread random generator as an explicit oracle
argument, and fallible or panicking code as Option results where none
stands for the panic.
-/

/-- Parity tag of the charge cycle, from ChargeCycle in neuron.rs. -/
inductive ChargeCycle where
  | Even : ChargeCycle
  | Odd : ChargeCycle
deriving DecidableEq, Repr

/-- Embeds ChargeCycle::next_cycle from neuron.rs. -/
def ChargeCycle.next_cycle : ChargeCycle → ChargeCycle
  | .Even => .Odd
  | .Odd => .Even

/-- Embeds Encephalon::get_charge_cycle from encephalon.rs: the parity of
the global cycle counter. -/
def ChargeCycle.ofCount (cnt : ℕ) : ChargeCycle :=
  if cnt % 2 = 0 then .Even else .Odd

/-- The two charge slots of a receiver neuron, from InternalCharge in
neuron.rs; the f32 slots are modelled as rationals. -/
structure InternalCharge where
  even : ℚ
  odd : ℚ
deriving DecidableEq, Repr

/-- Embeds InternalCharge::new. -/
def InternalCharge.new : InternalCharge := ⟨0, 0⟩

/-- Embeds InternalCharge::get_charge. -/
def InternalCharge.get_charge (c : InternalCharge) : ChargeCycle → ℚ
  | .Even => c.even
  | .Odd => c.odd

/-- Embeds InternalCharge::reset_charge. -/
def InternalCharge.reset_charge (c : InternalCharge) : ChargeCycle → InternalCharge
  | .Even => { c with even := 0 }
  | .Odd => { c with odd := 0 }

/-- Embeds InternalCharge::incr_next_charge: adds the increment to the slot
of the next parity. -/
def InternalCharge.incr_next_charge (c : InternalCharge) (cycle : ChargeCycle)
    (incr : ℚ) : InternalCharge :=
  match cycle.next_cycle with
  | .Even => { c with even := c.even + incr }
  | .Odd => { c with odd := c.odd + incr }

/-- Fire history of a neuron, from FireTracker in neuron.rs.  The Rust pair
values.0 and values.1 are the Even and Odd slots. -/
structure FireTracker where
  valuesEven : Bool
  valuesOdd : Bool
  last_recorded_current_cycle : ChargeCycle
  prev_prev : Bool
deriving DecidableEq, Repr

/-- Embeds FireTracker::new. -/
def FireTracker.new : FireTracker := ⟨false, false, .Even, false⟩

/-- Embeds FireTracker::fired_on_prev_cycle: reads the slot selected by the
parity after the given one. -/
def FireTracker.fired_on_prev_cycle (t : FireTracker) (cycle : ChargeCycle) : Bool :=
  match cycle.next_cycle with
  | .Even => t.valuesEven
  | .Odd => t.valuesOdd

/-- Embeds FireTracker::fired_on_prev_prev. -/
def FireTracker.fired_on_prev_prev (t : FireTracker) (cycle : ChargeCycle) : Bool :=
  if t.last_recorded_current_cycle = cycle then
    t.prev_prev
  else
    match cycle with
    | .Even => t.valuesEven
    | .Odd => t.valuesOdd

/-- Embeds FireTracker::set_tracker. -/
def FireTracker.set_tracker (t : FireTracker) (cycle : ChargeCycle) (fired : Bool) :
    FireTracker :=
  let pp : Bool := match cycle with
    | .Even => t.valuesEven
    | .Odd => t.valuesOdd
  match cycle with
  | .Even => { t with valuesEven := fired, last_recorded_current_cycle := cycle, prev_prev := pp }
  | .Odd => { t with valuesOdd := fired, last_recorded_current_cycle := cycle, prev_prev := pp }

/-- Spec-side accessor: the raw value stored in the tracker under the given
parity (values.0 for Even, values.1 for Odd). -/
def FireTracker.storedValue (t : FireTracker) : ChargeCycle → Bool
  | .Even => t.valuesEven
  | .Odd => t.valuesOdd

/-- Exponential moving average update shared by every neuron in neuron.rs:
on a firing step ema becomes alpha + (1 - alpha) * ema, on a non-firing step
it becomes (1 - alpha) * ema. -/
def emaStep (alpha : ℚ) (fired : Bool) (e : ℚ) : ℚ :=
  if fired then alpha + (1 - alpha) * e else (1 - alpha) * e

/-- The EMA of a neuron after a sequence of fire decisions, starting from
the initial value 0 set in the neuron constructors. -/
def emaTrace (alpha : ℚ) (l : List Bool) : ℚ :=
  l.foldl (fun e f => emaStep alpha f e) 0

/-- Excitatory or inhibitory synapse polarity, from SynapticType in
neuron/synapse.rs. -/
inductive SynapticType where
  | Excitatory : SynapticType
  | Inhibitory : SynapticType
deriving DecidableEq, Repr

/-- Embeds SynapticType::get_synapse_modifier. -/
def SynapticType.get_synapse_modifier : SynapticType → ℤ
  | .Excitatory => 1
  | .Inhibitory => -1

/-- The SynapticStrength trait of neuron/synapse.rs as a dictionary of
operations over an abstract strength state S; above_weakness_threshold is a
Bool as in the Rust trait. -/
structure StrengthOps (S : Type) where
  strengthen : S → S
  weaken : S → S
  get_strength : S → ℚ
  above_weakness_threshold : S → Bool

/-- Embeds the EmStrength realization of SynapticStrength (all f32 fields
as rationals). -/
structure EmStrength where
  strength : ℚ
  max_value : ℚ
  weakness_threshold : ℚ
  alpha : ℚ
deriving DecidableEq, Repr

/-- The SynapticStrength operations of EmStrength from neuron/synapse.rs. -/
def emStrengthOps : StrengthOps EmStrength where
  strengthen s := { s with strength := s.strength + s.alpha * (s.max_value - s.strength) }
  weaken s := { s with strength := s.strength - s.alpha * s.strength }
  get_strength s := s.strength
  above_weakness_threshold s := decide (s.strength > s.weakness_threshold)

/-- Embeds the SigmoidStrength realization of SynapticStrength; the curve
uses the real exponential, so the fields are reals. -/
structure SigmoidStrength where
  x_value : ℝ
  x_incr : ℝ
  max_value : ℝ
  weakness_threshold : ℝ

/-- Embeds SigmoidStrength::get_strength. -/
noncomputable def SigmoidStrength.get_strength (s : SigmoidStrength) : ℝ :=
  s.max_value / (1 + Real.exp (-1 * s.x_value))

/-- Embeds SigmoidStrength::strengthen. -/
def SigmoidStrength.strengthen (s : SigmoidStrength) : SigmoidStrength :=
  { s with x_value := s.x_value + s.x_incr }

/-- Embeds SigmoidStrength::weaken. -/
def SigmoidStrength.weaken (s : SigmoidStrength) : SigmoidStrength :=
  { s with x_value := s.x_value - s.x_incr }

/-- Embeds SigmoidStrength::above_weakness_threshold, stated as the
proposition that the strength is strictly above the threshold. -/
def SigmoidStrength.aboveWeaknessThreshold (s : SigmoidStrength) : Prop :=
  s.get_strength > s.weakness_threshold

/-- A plastic synapse from neuron/synapse.rs: a mutable strength state, a
polarity and the index of the target neuron in the arena. -/
structure PlasticSynapse (S : Type) where
  strength : S
  synaptic_type : SynapticType
  target : ℕ
deriving DecidableEq, Repr

/-- A static synapse from neuron/synapse.rs: fixed strength, polarity and
target. -/
structure StaticSynapse where
  strength : ℚ
  synaptic_type : SynapticType
  target : ℕ
deriving DecidableEq, Repr

/-- The kind of a neuron together with its kind-specific data: sensory
neurons carry their firing period. -/
inductive NKind where
  | sensory (period : ℕ) : NKind
  | plastic : NKind
  | actuator : NKind
deriving DecidableEq, Repr

/-- One neuron of the encephalon, merging the shared fields of
SensoryNeuron, PlasticNeuron and ActuatorNeuron in neuron.rs.  Fields
unused by a kind (the charge of a sensory neuron, the synapse lists of an
actuator neuron) are simply never read or written for that kind. -/
structure Neuron (S : Type) where
  kind : NKind
  internal_charge : InternalCharge
  fire_threshold : ℚ
  fire_tracker : FireTracker
  max_plastic_synapses : ℕ
  plastic_synapses : List (PlasticSynapse S)
  static_synapses : List StaticSynapse
  synapse_type_threshold : ℚ
  ema : ℚ
  alpha : ℚ
deriving DecidableEq, Repr

/-- The neuron arena of the encephalon during a cycle, indexed by a natural
number standing for the position hash. -/
def EncState (S : Type) : Type := ℕ → Neuron S

/-- The view a pruning neuron has of another neuron: whether that neuron
fired on the previous cycle, read through RxNeuronic::fired_on_prev_cycle
with the current parity. -/
def trackView {S : Type} (p : ChargeCycle) (s : EncState S) (t : ℕ) : Bool :=
  (s t).fire_tracker.fired_on_prev_cycle p

/-- One step of the retain closure in prune_synapses (neuron.rs): when the
owner fired two cycles ago the synapse is strengthened if its target fired
on the previous cycle and decayed otherwise, and afterwards the synapse is
kept exactly when its updated strength is above the weakness threshold. -/
def pruneUpdate {S : Type} (ops : StrengthOps S) (synapses_fired : Bool)
    (targetFired : ℕ → Bool) (syn : PlasticSynapse S) : PlasticSynapse S :=
  if synapses_fired then
    if targetFired syn.target then
      { syn with strength := ops.strengthen syn.strength }
    else
      { syn with strength := ops.weaken syn.strength }
  else syn

/-- The keep-or-drop decision of the retain closure, applied to the updated
synapse. -/
def pruneOne {S : Type} (ops : StrengthOps S) (synapses_fired : Bool)
    (targetFired : ℕ → Bool) (syn : PlasticSynapse S) : Option (PlasticSynapse S) :=
  if ops.above_weakness_threshold
      (pruneUpdate ops synapses_fired targetFired syn).strength then
    some (pruneUpdate ops synapses_fired targetFired syn)
  else none

/-- Embeds the retain call of FxNeuronic::prune_synapses over the whole
plastic synapse list. -/
def pruneList {S : Type} (ops : StrengthOps S) (synapses_fired : Bool)
    (targetFired : ℕ → Bool) (l : List (PlasticSynapse S)) : List (PlasticSynapse S) :=
  l.filterMap (pruneOne ops synapses_fired targetFired)

/-- Embeds FxNeuronic::form_plastic_synapse: when below the cap, ask the
locality oracle for a target and append a fresh synapse whose polarity is
chosen by comparing the ema with the type threshold. -/
def sproutList {S : Type} (fresh : S) (randTarget : Option ℕ)
    (maxPlastic : ℕ) (ema typeThreshold : ℚ)
    (l : List (PlasticSynapse S)) : List (PlasticSynapse S) :=
  if l.length < maxPlastic then
    match randTarget with
    | some t =>
        l ++ [{ strength := fresh,
                synaptic_type := if ema < typeThreshold then .Excitatory else .Inhibitory,
                target := t }]
    | none => l
  else l

/-- The prune-then-sprout prefix of the sensory and plastic neuron cycle
procedures; rho is the locality oracle standing for
Encephalon::local_random_neuron at each neuron index. -/
def fxUpdate {S : Type} (ops : StrengthOps S) (fresh : S) (p : ChargeCycle)
    (rho : ℕ → Option ℕ) (s : EncState S) (a : ℕ) : Neuron S :=
  let n := s a
  let synapses_fired := n.fire_tracker.fired_on_prev_prev p
  let pruned := pruneList ops synapses_fired (trackView p s) n.plastic_synapses
  let sprouted := sproutList fresh (rho a) n.max_plastic_synapses n.ema
    n.synapse_type_threshold pruned
  { n with plastic_synapses := sprouted }

/-- Embeds the sensory fire condition of SensoryNeuron::run_cycle: the
period is non-zero and divides the cycle count. -/
def sensoryFires (period cnt : ℕ) : Bool :=
  period != 0 && cnt % period == 0

/-- The fire decision of a neuron for this cycle: sensory neurons use the
period rule, receiver neurons compare the current-parity charge with the
fire threshold (strictly). -/
def firesOf {S : Type} (cnt : ℕ) (p : ChargeCycle) (n : Neuron S) : Bool :=
  match n.kind with
  | .sensory period => sensoryFires period cnt
  | .plastic => decide (n.internal_charge.get_charge p > n.fire_threshold)
  | .actuator => decide (n.internal_charge.get_charge p > n.fire_threshold)

/-- The impulses sent by TxNeuronic::fire_synapses: plastic synapses first,
then static ones, each delivering strength times the polarity modifier to
its target. -/
def impulsesOf {S : Type} (ops : StrengthOps S) (n : Neuron S) : List (ℕ × ℚ) :=
  n.plastic_synapses.map
    (fun syn => (syn.target, ops.get_strength syn.strength * (syn.synaptic_type.get_synapse_modifier : ℚ)))
  ++ n.static_synapses.map
    (fun syn => (syn.target, syn.strength * (syn.synaptic_type.get_synapse_modifier : ℚ)))

/-- The record of neuron a after its own per-cycle procedure, before the
impulses it emitted are folded into the arena: prune and sprout (for the
kinds that have them), then the ema and tracker update for the fire
decision, then the zeroing of the current-parity charge slot (for the
receiver kinds). -/
def localFinal {S : Type} (cnt : ℕ) (p : ChargeCycle) (ops : StrengthOps S)
    (fresh : S) (rho : ℕ → Option ℕ) (s : EncState S) (a : ℕ) : Neuron S :=
  match (s a).kind with
  | .sensory _ =>
      let n2 := fxUpdate ops fresh p rho s a
      let f := firesOf cnt p n2
      { n2 with ema := emaStep n2.alpha f n2.ema,
                fire_tracker := n2.fire_tracker.set_tracker p f }
  | .plastic =>
      let n2 := fxUpdate ops fresh p rho s a
      let f := firesOf cnt p n2
      { n2 with ema := emaStep n2.alpha f n2.ema,
                fire_tracker := n2.fire_tracker.set_tracker p f,
                internal_charge := n2.internal_charge.reset_charge p }
  | .actuator =>
      let n := s a
      let f := firesOf cnt p n
      { n with ema := emaStep n.alpha f n.ema,
               fire_tracker := n.fire_tracker.set_tracker p f,
               internal_charge := n.internal_charge.reset_charge p }

/-- The impulses emitted by neuron a during its per-cycle procedure: none
for an actuator neuron, and the fire_synapses list when the fire decision
is positive for the transmitter kinds. -/
def stepImpulses {S : Type} (cnt : ℕ) (p : ChargeCycle) (ops : StrengthOps S)
    (fresh : S) (rho : ℕ → Option ℕ) (s : EncState S) (a : ℕ) : List (ℕ × ℚ) :=
  match (s a).kind with
  | .actuator => []
  | _ =>
      let n2 := fxUpdate ops fresh p rho s a
      if firesOf cnt p n2 then impulsesOf ops n2 else []

/-- Adds an impulse to the next-parity charge slot of a neuron record, the
effect of RxNeuronic::intake_synaptic_impulse. -/
def applyCharge {S : Type} (p : ChargeCycle) (v : ℚ) (n : Neuron S) : Neuron S :=
  { n with internal_charge := n.internal_charge.incr_next_charge p v }

/-- Delivers one impulse to its target inside the arena. -/
def deliver {S : Type} (p : ChargeCycle) (s : EncState S) (tv : ℕ × ℚ) : EncState S :=
  Function.update s tv.1 (applyCharge p tv.2 (s tv.1))

/-- Delivers a list of impulses in order. -/
def applyImpulses {S : Type} (p : ChargeCycle) (s : EncState S)
    (l : List (ℕ × ℚ)) : EncState S :=
  l.foldl (deliver p) s

/-- One visit of the per-neuron loop bodies in Encephalon::run_cycle steps
(4) and (5): the record of the visited neuron is replaced by the result of
its per-cycle procedure and the impulses it emitted are delivered.  In the
Rust code the deliveries happen inside fire_synapses, between the prune or
sprout phase and the ema, tracker and charge-reset writes of the same
neuron; since the deliveries only touch next-parity charge slots and the
remaining writes only touch other fields or the current-parity slot of the
visited neuron, delivering after the record write is the same function. -/
def runStep {S : Type} (cnt : ℕ) (p : ChargeCycle) (ops : StrengthOps S)
    (fresh : S) (rho : ℕ → Option ℕ) (s : EncState S) (a : ℕ) : EncState S :=
  applyImpulses p (Function.update s a (localFinal cnt p ops fresh rho s a))
    (stepImpulses cnt p ops fresh rho s a)

/-- Receiver neuron tags emitted by the geometry, from RxNeuron in
neuron.rs. -/
inductive RxNeuron where
  | Actuator : RxNeuron
  | Plastic : RxNeuron
deriving DecidableEq, Repr

/-- The BoxEcp geometry record from ecp_geometry.rs.  The constructor
BoxEcp::new derives side_length from a floating cube root; the claims
quantify over already-built geometries, so the record is taken directly. -/
structure BoxEcp where
  num_plastic : ℕ
  num_actuator : ℕ
  num_sensory : ℕ
  nearby_side_length : ℕ
  side_length : ℕ
deriving DecidableEq, Repr

/-- Embeds BoxEcp::loc_hash: the debug formatting of the coordinate vector,
for example a three coordinate location prints as a bracketed comma
separated list. -/
def BoxEcp.loc_hash (loc : List ℤ) : String :=
  "[" ++ String.intercalate (", ") (loc.map toString) ++ "]"

/-- Embeds BoxEcp::first_rx_loc. -/
def BoxEcp.first_rx_loc (_g : BoxEcp) : List ℤ × String × RxNeuron :=
  ([0, 0, 0], BoxEcp.loc_hash [0, 0, 0], RxNeuron.Plastic)

/-- Embeds BoxEcp::next_rx_loc.  The Rust code computes is_actuator for the
far face but returns the Plastic tag in both branches of the conditional;
the embedding keeps that structure verbatim. -/
def BoxEcp.next_rx_loc (g : BoxEcp) (curr_loc : List ℤ) :
    Option (List ℤ × String × RxNeuron) :=
  match curr_loc.get? 0 with
  | none => none
  | some x =>
    match curr_loc.get? 1 with
    | none => none
    | some y =>
      match curr_loc.get? 2 with
      | none => none
      | some z =>
        if x = ((g.side_length - 1 : ℕ) : ℤ) then
          if y = ((g.side_length - 1 : ℕ) : ℤ) then
            if z = ((g.side_length - 1 : ℕ) : ℤ) then
              none
            else
              if z + 1 = ((g.side_length - 1 : ℕ) : ℤ) then
                if (0 * (g.side_length : ℤ)) + 0 + 1 ≤ (g.num_actuator : ℤ) then
                  some ([0, 0, z + 1], BoxEcp.loc_hash [0, 0, z + 1], RxNeuron.Plastic)
                else
                  some ([0, 0, z + 1], BoxEcp.loc_hash [0, 0, z + 1], RxNeuron.Plastic)
              else
                some ([0, 0, z + 1], BoxEcp.loc_hash [0, 0, z + 1], RxNeuron.Plastic)
          else
            if z = ((g.side_length - 1 : ℕ) : ℤ) then
              if ((y + 1) * (g.side_length : ℤ)) + 0 + 1 ≤ (g.num_actuator : ℤ) then
                some ([0, y + 1, z], BoxEcp.loc_hash [0, y + 1, z], RxNeuron.Plastic)
              else
                some ([0, y + 1, z], BoxEcp.loc_hash [0, y + 1, z], RxNeuron.Plastic)
            else
              some ([0, y + 1, z], BoxEcp.loc_hash [0, y + 1, z], RxNeuron.Plastic)
        else
          if z = ((g.side_length - 1 : ℕ) : ℤ) then
            if (y * (g.side_length : ℤ)) + (x + 1) + 1 ≤ (g.num_actuator : ℤ) then
              some ([x + 1, y, z], BoxEcp.loc_hash [x + 1, y, z], RxNeuron.Plastic)
            else
              some ([x + 1, y, z], BoxEcp.loc_hash [x + 1, y, z], RxNeuron.Plastic)
          else
            some ([x + 1, y, z], BoxEcp.loc_hash [x + 1, y, z], RxNeuron.Plastic)

/-- Embeds BoxEcp::first_sensory_loc. -/
def BoxEcp.first_sensory_loc (_g : BoxEcp) : List ℤ × String :=
  ([0, 0, -1], BoxEcp.loc_hash [0, 0, -1])

/-- Embeds BoxEcp::next_sensory_loc.  Note the successor locations carry
only two coordinates, exactly as the Rust code builds them. -/
def BoxEcp.next_sensory_loc (g : BoxEcp) (curr_loc : List ℤ) :
    Option (List ℤ × String) :=
  match curr_loc.get? 0 with
  | none => none
  | some x =>
    match curr_loc.get? 1 with
    | none => none
    | some y =>
      if x = ((g.side_length - 1 : ℕ) : ℤ) then
        if y = ((g.side_length - 1 : ℕ) : ℤ) then
          none
        else
          some ([0, y + 1], BoxEcp.loc_hash [0, y + 1])
      else
        some ([x + 1, y], BoxEcp.loc_hash [x + 1, y])

/-- Model of rand gen_range(low, high): a uniform draw from the half-open
interval, parametrized by a seed so that every value of the interval is a
possible outcome; an empty interval (low not below high) is the panic of
the rand crate, modelled as none. -/
def genRange (low high : ℤ) (r : ℕ) : Option ℤ :=
  if low < high then some (low + (r : ℤ) % (high - low)) else none

/-- Embeds BoxEcp::local_random_hash with an explicit random seed triple.
The outer none is a panic inside gen_range; some none is the regular None
return of the Rust function (malformed location). -/
def BoxEcp.local_random_hash (g : BoxEcp) (loc : List ℤ) (r1 r2 r3 : ℕ) :
    Option (Option String) :=
  match loc.get? 0 with
  | none => some none
  | some x =>
    match loc.get? 1 with
    | none => some none
    | some y =>
      match loc.get? 2 with
      | none => some none
      | some z =>
        let last_position : ℤ := ((g.side_length - 1 : ℕ) : ℤ)
        let n : ℤ := (g.nearby_side_length : ℤ)
        let dist_from_center := (n - 1) / 2
        let bx0 := x - dist_from_center
        let bottom_x :=
          if bx0 < 0 then 0
          else if bx0 + (n - 1) > last_position then last_position - (n - 1)
          else bx0
        let by0 := y - dist_from_center
        let bottom_y :=
          if by0 < 0 then 0
          else if by0 + (n - 1) > last_position then last_position - (n - 1)
          else by0
        let bz0 := z - dist_from_center
        let bottom_z :=
          if bz0 < 0 then 0
          else if bz0 + (n - 1) > last_position then last_position - (n - 1)
          else bz0
        match genRange bottom_x (bottom_x + n - 1) r1 with
        | none => none
        | some rand_x =>
          match genRange bottom_y (bottom_y + n - 1) r2 with
          | none => none
          | some rand_y =>
            match genRange bottom_z (bottom_z + n - 1) r3 with
            | none => none
            | some rand_z =>
              some (some (BoxEcp.loc_hash [rand_x, rand_y, rand_z]))

/-- The receiver enumeration of the geometry: first_rx_loc followed by
repeated next_rx_loc, cut off by a fuel bound. -/
def rxEnumAux (g : BoxEcp) : ℕ → (List ℤ × String × RxNeuron) →
    List (List ℤ × String × RxNeuron)
  | 0, _ => []
  | fuel + 1, e =>
      e :: (match g.next_rx_loc e.1 with
            | some e2 => rxEnumAux g fuel e2
            | none => [])

/-- The full receiver enumeration of a box, with fuel for every lattice
cell. -/
def rxEnum (g : BoxEcp) : List (List ℤ × String × RxNeuron) :=
  rxEnumAux g (g.side_length ^ 3) (g.first_rx_loc)

/-- The sensory enumeration of the geometry: first_sensory_loc followed by
repeated next_sensory_loc, cut off by a fuel bound. -/
def sensoryEnumAux (g : BoxEcp) : ℕ → List ℤ → List (List ℤ)
  | 0, _ => []
  | fuel + 1, loc =>
      loc :: (match g.next_sensory_loc loc with
              | some e2 => sensoryEnumAux g fuel e2.1
              | none => [])

/-- The full sensory enumeration of a box, with fuel for every cell of the
sensory plane. -/
def sensoryEnum (g : BoxEcp) : List (List ℤ) :=
  sensoryEnumAux g (g.side_length ^ 2) (g.first_sensory_loc).1

/-- A reflex declaration from encephalon.rs: a static synapse description
between a named sensor and a named actuator. -/
structure Reflex where
  sensor_name : String
  actuator_name : String
  synapse_type : SynapticType
  strength : ℚ
deriving DecidableEq, Repr

/-- The parts of a constructed Encephalon that the construction claims
speak about: the receiver arena keyed by position hash, the hashes of the
sensory neurons, and the two interface maps pairing external names with
neuron hashes. -/
structure EncephalonModel where
  rx_neurons : List (String × RxNeuron)
  sensory_neurons : List String
  actuator_interfaces : List (String × String)
  sensory_interfaces : List (String × String)
deriving DecidableEq, Repr

/-- One iteration of the receiver population loop of Encephalon::new:
insert a neuron for the enumerated tag, and on an Actuator tag pop the next
actuator from the end of the callers list and pair it as an interface. -/
def buildRxStep
    (acc : List (String × RxNeuron) × List (String × String) × List String)
    (e : List ℤ × String × RxNeuron) :
    List (String × RxNeuron) × List (String × String) × List String :=
  match e.2.2 with
  | RxNeuron.Actuator =>
      let popped := acc.2.2.getLast?
      let rest := acc.2.2.dropLast
      (acc.1 ++ [(e.2.1, RxNeuron.Actuator)],
       (match popped with
        | some name => acc.2.1 ++ [(name, e.2.1)]
        | none => acc.2.1),
       rest)
  | RxNeuron.Plastic =>
      (acc.1 ++ [(e.2.1, RxNeuron.Plastic)], acc.2.1, acc.2.2)

/-- The receiver population loop of Encephalon::new over the whole
enumeration. -/
def buildRx (entries : List (List ℤ × String × RxNeuron)) (actuators : List String) :
    List (String × RxNeuron) × List (String × String) × List String :=
  entries.foldl buildRxStep ([], [], actuators)

/-- The sensory population loop of Encephalon::new: walk the sensory
enumeration, create a sensory neuron per position, and pop the next sensor
from the end of the callers list to pair it as an interface. -/
def buildSensory (hashes : List String) (sensors : List String) :
    List String × List (String × String) × List String :=
  hashes.foldl
    (fun acc h =>
      let popped := acc.2.2.getLast?
      let rest := acc.2.2.dropLast
      (acc.1 ++ [h],
       (match popped with
        | some name => acc.2.1 ++ [(name, h)]
        | none => acc.2.1),
       rest))
    ([], [], sensors)

/-- Embeds Encephalon::new over a BoxEcp geometry, with sensors and
actuators reduced to their names.  The none result is the construction
panic raised when a count does not match the geometry. -/
def encephalonNew (g : BoxEcp) (sensors actuators : List String) :
    Option EncephalonModel :=
  if g.num_sensory ≠ sensors.length then none
  else if g.num_actuator ≠ actuators.length then none
  else
    let rx := buildRx (rxEnum g) actuators
    let se := buildSensory ((sensoryEnum g).map BoxEcp.loc_hash) sensors
    some { rx_neurons := rx.1,
           sensory_neurons := se.1,
           actuator_interfaces := rx.2.1,
           sensory_interfaces := se.2.1 }

/-- Embeds Encephalon::form_reflex_synapses as the list of static synapses
it installs: one per reflex whose sensor name and actuator name both
resolve to interfaces, recorded as the hash of the sensory neuron carrying
the new synapse, the hash of the target actuator neuron, and the polarity
and strength of the synapse. -/
def formReflexInstalls (e : EncephalonModel) (reflexes : List Reflex) :
    List (String × String × SynapticType × ℚ) :=
  reflexes.filterMap
    (fun r =>
      match (e.sensory_interfaces.lookup r.sensor_name,
             e.actuator_interfaces.lookup r.actuator_name) with
      | (some sensorHash, some actHash) =>
          some (sensorHash, actHash, r.synapse_type, r.strength)
      | _ => none)

/-- A BoxEcp of side length 2 (desired plastic count 8) with one actuator,
one sensory neuron and nearby count 1, as BoxEcp::new(8, 1, 1, 1) builds
it; it satisfies every construction constraint of the geometry. -/
def box821 : BoxEcp :=
  { num_plastic := 8, num_actuator := 1, num_sensory := 1,
    nearby_side_length := 1, side_length := 2 }

/-- C7: after set_tracker(cycle, fired), fired_on_prev_cycle at the next
parity returns fired, and fired_on_prev_prev at the same parity returns the
value that was stored under that parity before the update. -/
theorem c7_fire_tracker_invariant (t : FireTracker) (c : ChargeCycle) (b : Bool) :
    (t.set_tracker c b).fired_on_prev_cycle c.next_cycle = b ∧
    (t.set_tracker c b).fired_on_prev_prev c = t.storedValue c := by
  cases c <;>
    simp [FireTracker.set_tracker, FireTracker.fired_on_prev_cycle,
      FireTracker.fired_on_prev_prev, FireTracker.storedValue, ChargeCycle.next_cycle]

/-- C1: evaluating next_rx_loc of the side-2 box with one actuator at the
cell preceding the far face: the successor cell [0, 0, 1] lies on the far
face z = 1 and its row-major flat index 0 is below the actuator count, yet
the code tags it Plastic (the two branches of the is_actuator conditional
are identical), contradicting the claimed Actuator tag. -/
theorem c1_far_face_cell_tagged_plastic :
    box821.next_rx_loc [1, 1, 0] =
      some ([0, 0, 1], "[0, 0, 1]", RxNeuron.Plastic) ∧
    0 * box821.side_length + 0 < box821.num_actuator ∧
    (1 : ℤ) = ((box821.side_length - 1 : ℕ) : ℤ) := by
  refine ⟨by decide, by decide, by decide⟩

/-- C5: evaluating local_random_hash of the side-2 box with nearby side
length 1 (nearby count 1, allowed by the constructor) at the in-box corner
location: the first gen_range call receives an empty interval and panics,
modelled as the none result. -/
theorem c5_local_random_hash_panics_at_nearby_one :
    box821.local_random_hash [0, 0, 0] 0 0 0 = none := by decide

/-- C10: construction of the encephalon fails exactly when the sensor count
differs from the geometry sensory count or the actuator count differs from
the geometry actuator count. -/
theorem c10_construction_fails_iff_count_mismatch (g : BoxEcp)
    (sensors actuators : List String) :
    encephalonNew g sensors actuators = none ↔
      sensors.length ≠ g.num_sensory ∨ actuators.length ≠ g.num_actuator := by
  unfold encephalonNew
  by_cases h1 : g.num_sensory = sensors.length <;>
    by_cases h2 : g.num_actuator = actuators.length <;>
      simp [h1, h2] <;> omega

/-- C6 counterexample: with alpha one half (inside the open unit interval)
and the initial EMA value 0, a non-firing step leaves the EMA at 0, so the
EMA does not strictly decrease on that non-firing step as claimed. -/
theorem c6_nonfiring_step_at_zero_not_strict :
    0 < ((1 : ℚ)/2) ∧ ((1 : ℚ)/2) < 1 ∧ emaTrace (1/2) [] = 0 ∧
    ¬ (emaStep (1/2) false (emaTrace (1/2) []) < emaTrace (1/2) []) := by
  refine ⟨by norm_num, by norm_num, rfl, ?_⟩
  norm_num [emaTrace, emaStep]

/-- Preservation of the half-open unit interval by one EMA step. -/
theorem emaStep_bounds (alpha : ℚ) (h0 : 0 < alpha) (h1 : alpha < 1) (f : Bool)
    (e : ℚ) (he0 : 0 ≤ e) (he1 : e < 1) :
    0 ≤ emaStep alpha f e ∧ emaStep alpha f e < 1 := by
  cases f <;> simp only [emaStep, if_true, if_false, Bool.false_eq_true] <;>
    constructor <;> nlinarith

/-- Interval invariant for the EMA along any sequence of fire decisions. -/
theorem emaTrace_bounds (alpha : ℚ) (h0 : 0 < alpha) (h1 : alpha < 1)
    (l : List Bool) : 0 ≤ emaTrace alpha l ∧ emaTrace alpha l < 1 := by
  suffices h : ∀ (l : List Bool) (e : ℚ), 0 ≤ e → e < 1 →
      0 ≤ l.foldl (fun e f => emaStep alpha f e) e ∧
      l.foldl (fun e f => emaStep alpha f e) e < 1 by
    exact h l 0 le_rfl one_pos
  intro l
  induction l with
  | nil => intro e he0 he1; exact ⟨he0, he1⟩
  | cons f l ih =>
      intro e he0 he1
      have hs := emaStep_bounds alpha h0 h1 f e he0 he1
      exact ih (emaStep alpha f e) hs.1 hs.2

/-- C6 amended: for alpha in the open unit interval and initial EMA 0, the
EMA stays within the unit interval across all cycles; every firing step
strictly increases it; every non-firing step from a positive EMA strictly
decreases it toward 0, and a non-firing step at EMA 0 leaves it at 0. -/
theorem c6_ema_invariant_amended (alpha : ℚ) (h0 : 0 < alpha) (h1 : alpha < 1)
    (l : List Bool) :
    0 ≤ emaTrace alpha l ∧ emaTrace alpha l ≤ 1 ∧
    emaTrace alpha l < emaStep alpha true (emaTrace alpha l) ∧
    (0 < emaTrace alpha l →
      emaStep alpha false (emaTrace alpha l) < emaTrace alpha l) ∧
    emaStep alpha false 0 = 0 := by
  obtain ⟨hb0, hb1⟩ := emaTrace_bounds alpha h0 h1 l
  refine ⟨hb0, le_of_lt hb1, ?_, ?_, by simp [emaStep]⟩
  · simp only [emaStep, if_true]
    nlinarith
  · intro hpos
    simp only [emaStep, Bool.false_eq_true, if_false]
    nlinarith

/-- C6 witness: the amended invariant instantiated at alpha one half after
a single firing cycle. -/
theorem c6_ema_invariant_witness :
    0 < ((1 : ℚ)/2) ∧ ((1 : ℚ)/2) < 1 ∧
    (0 ≤ emaTrace (1/2) [true] ∧ emaTrace (1/2) [true] ≤ 1 ∧
     emaTrace (1/2) [true] < emaStep (1/2) true (emaTrace (1/2) [true]) ∧
     (0 < emaTrace (1/2) [true] →
       emaStep (1/2) false (emaTrace (1/2) [true]) < emaTrace (1/2) [true]) ∧
     emaStep (1/2) false 0 = 0) :=
  ⟨by norm_num, by norm_num,
   c6_ema_invariant_amended (1/2) (by norm_num) (by norm_num) [true]⟩

/-- C4 counterexample: for the side-2 box with one sensory neuron, the
sensory enumeration has four positions rather than numSensory, and its
later positions carry no z coordinate at all, refuting the claim at this
geometry. -/
theorem c4_sensory_enum_counterexample :
    ¬ ((sensoryEnum box821).length = box821.num_sensory ∧
       ∀ loc ∈ sensoryEnum box821, loc.get? 2 = some (-1)) := by
  decide

/-- Every successor cell emitted by next_rx_loc carries the Plastic tag:
the two branches of the is_actuator conditional in the Rust code are
identical. -/
theorem next_rx_loc_tag_plastic (g : BoxEcp) (loc : List ℤ)
    (e : List ℤ × String × RxNeuron) (h : g.next_rx_loc loc = some e) :
    e.2.2 = RxNeuron.Plastic := by
  unfold BoxEcp.next_rx_loc at h
  repeat' split at h
  all_goals first
    | exact Option.noConfusion h
    | (rw [Option.some.injEq] at h; subst h; rfl)

/-- Every entry of the receiver enumeration started from a Plastic-tagged
entry carries the Plastic tag. -/
theorem rxEnumAux_tags_plastic (g : BoxEcp) :
    ∀ (fuel : ℕ) (e : List ℤ × String × RxNeuron), e.2.2 = RxNeuron.Plastic →
      ∀ x ∈ rxEnumAux g fuel e, x.2.2 = RxNeuron.Plastic := by
  intro fuel
  induction fuel with
  | zero => intro e he x hx; simp [rxEnumAux] at hx
  | succ n ih =>
      intro e he x hx
      simp only [rxEnumAux, List.mem_cons] at hx
      rcases hx with rfl | hx
      · exact he
      · revert hx
        cases hnext : g.next_rx_loc e.1 with
        | none => intro hx; simp at hx
        | some e2 =>
            intro hx
            exact ih e2 (next_rx_loc_tag_plastic g e.1 e2 hnext) x hx

/-- Every entry of the receiver enumeration of a box carries the Plastic
tag. -/
theorem rxEnum_tags_plastic (g : BoxEcp) :
    ∀ x ∈ rxEnum g, x.2.2 = RxNeuron.Plastic := by
  intro x hx
  exact rxEnumAux_tags_plastic g _ _ rfl x hx

/-- The receiver population loop adds no actuator interface when every
enumerated entry is tagged Plastic. -/
theorem buildRx_foldl_no_actuator
    (entries : List (List ℤ × String × RxNeuron))
    (h : ∀ x ∈ entries, x.2.2 = RxNeuron.Plastic) :
    ∀ acc, (entries.foldl buildRxStep acc).2.1 = acc.2.1 := by
  induction entries with
  | nil => intro acc; rfl
  | cons e rest ih =>
      intro acc
      have he : e.2.2 = RxNeuron.Plastic := h e (by simp)
      have hrest : ∀ x ∈ rest, x.2.2 = RxNeuron.Plastic := by
        intro x hx; exact h x (by simp [hx])
      simp only [List.foldl_cons]
      rw [ih hrest]
      simp [buildRxStep, he]

/-- C2: every successful construction of an encephalon over a BoxEcp
geometry leaves the actuator interface map empty, and consequently
form_reflex_synapses installs no static synapse for any reflex list. -/
theorem c2_actuator_interfaces_empty (g : BoxEcp)
    (sensors actuators : List String) (reflexes : List Reflex)
    (e : EncephalonModel) (h : encephalonNew g sensors actuators = some e) :
    e.actuator_interfaces = [] ∧ formReflexInstalls e reflexes = [] := by
  unfold encephalonNew at h
  split_ifs at h
  have he : e.actuator_interfaces = (buildRx (rxEnum g) actuators).2.1 := by
    cases h; rfl
  have hempty : e.actuator_interfaces = [] := by
    rw [he]
    exact buildRx_foldl_no_actuator (rxEnum g) (rxEnum_tags_plastic g) _
  refine ⟨hempty, ?_⟩
  unfold formReflexInstalls
  rw [List.filterMap_eq_nil_iff]
  intro r _hr
  rw [hempty]
  simp [List.lookup]

/-- A single-cell box with one actuator and no sensors, used as a concrete
construction instance. -/
def boxW : BoxEcp :=
  { num_plastic := 1, num_actuator := 1, num_sensory := 0,
    nearby_side_length := 1, side_length := 1 }

/-- The encephalon the model builds from boxW with an empty sensor list and
a single actuator. -/
def encW : EncephalonModel :=
  { rx_neurons := [("[0, 0, 0]", RxNeuron.Plastic)],
    sensory_neurons := ["[0, 0, -1]"],
    actuator_interfaces := [],
    sensory_interfaces := [] }

/-- C2 witness: the construction over the single-cell box succeeds yet
yields no actuator interface and installs nothing for a reflex naming its
only actuator. -/
theorem c2_actuator_interfaces_empty_witness :
    encephalonNew boxW [] ["motor"] = some encW ∧
    (encW.actuator_interfaces = [] ∧
     formReflexInstalls encW
       [{ sensor_name := "eye", actuator_name := "motor",
          synapse_type := SynapticType.Excitatory, strength := 20 }] = []) :=
  ⟨by decide,
   c2_actuator_interfaces_empty boxW [] ["motor"]
     [{ sensor_name := "eye", actuator_name := "motor",
        synapse_type := SynapticType.Excitatory, strength := 20 }]
     encW (by decide)⟩

/-- C8: the prune step maps strengthen over synapses whose target fired and
decay over the others exactly when the owner fired two cycles ago, then
keeps exactly the synapses whose updated strength is connected; for the
sigmoid strength, connected means strictly above the weakness threshold, so
a strength exactly at the threshold does not survive. -/
theorem c8_prune_strengthen_decay_remove (S : Type) (ops : StrengthOps S)
    (synapses_fired : Bool) (targetFired : ℕ → Bool)
    (l : List (PlasticSynapse S)) :
    pruneList ops synapses_fired targetFired l =
      (l.map (pruneUpdate ops synapses_fired targetFired)).filter
        (fun syn => ops.above_weakness_threshold syn.strength) ∧
    (∀ syn : PlasticSynapse S,
      pruneUpdate ops synapses_fired targetFired syn =
        (if synapses_fired then
          if targetFired syn.target then
            { syn with strength := ops.strengthen syn.strength }
          else
            { syn with strength := ops.weaken syn.strength }
        else syn)) ∧
    (∀ s : SigmoidStrength,
      s.aboveWeaknessThreshold ↔ s.get_strength > s.weakness_threshold) ∧
    (∀ s : SigmoidStrength,
      s.get_strength = s.weakness_threshold → ¬ s.aboveWeaknessThreshold) := by
  refine ⟨?_, fun syn => rfl, fun s => Iff.rfl, ?_⟩
  · induction l with
    | nil => rfl
    | cons syn rest ih =>
        simp only [pruneList, List.filterMap_cons, List.map_cons, List.filter_cons]
        rw [← pruneList]
        rw [ih]
        unfold pruneOne
        by_cases ha : ops.above_weakness_threshold
            (pruneUpdate ops synapses_fired targetFired syn).strength <;>
          simp [ha]
  · intro s h
    unfold SigmoidStrength.aboveWeaknessThreshold
    rw [h]
    exact lt_irrefl _

/-- A sigmoid strength sitting exactly at its weakness threshold: x value
0, so the strength is half the maximum value 2, equal to the threshold 1. -/
def sigmaAtThreshold : SigmoidStrength :=
  { x_value := 0, x_incr := 1, max_value := 2, weakness_threshold := 1 }

/-- C8 witness: the threshold-equality case instantiated at the concrete
sigmoid strength whose strength equals its weakness threshold. -/
theorem c8_prune_strengthen_decay_remove_witness :
    sigmaAtThreshold.get_strength = sigmaAtThreshold.weakness_threshold ∧
    ¬ sigmaAtThreshold.aboveWeaknessThreshold := by
  have hg : sigmaAtThreshold.get_strength = sigmaAtThreshold.weakness_threshold := by
    simp [SigmoidStrength.get_strength, sigmaAtThreshold, Real.exp_zero]
    norm_num
  exact ⟨hg,
    (c8_prune_strengthen_decay_remove EmStrength emStrengthOps true
      (fun _ => true) []).2.2.2 sigmaAtThreshold hg⟩

/-- Checked remainder: the Rust percent operator panics on a zero divisor,
modelled as none. -/
def checkedMod (a b : ℕ) : Option ℕ :=
  if b = 0 then none else some (a % b)

/-- The sensory fire condition with the panic of the modulo made explicit:
the short-circuit of the Rust conjunction evaluates the modulo only behind
the non-zero guard. -/
def sensoryFireDecision (period cnt : ℕ) : Option Bool :=
  if period != 0 then (checkedMod cnt period).map (fun r => r == 0)
  else some false

/-- The prune-and-sprout phase only rewrites the plastic synapse list: the
kind of the neuron is untouched. -/
theorem fxUpdate_kind {S : Type} (ops : StrengthOps S) (fresh : S)
    (p : ChargeCycle) (rho : ℕ → Option ℕ) (s : EncState S) (a : ℕ) :
    (fxUpdate ops fresh p rho s a).kind = (s a).kind := rfl

/-- The prune-and-sprout phase leaves the ema untouched. -/
theorem fxUpdate_ema {S : Type} (ops : StrengthOps S) (fresh : S)
    (p : ChargeCycle) (rho : ℕ → Option ℕ) (s : EncState S) (a : ℕ) :
    (fxUpdate ops fresh p rho s a).ema = (s a).ema := rfl

/-- The prune-and-sprout phase leaves the alpha constant untouched. -/
theorem fxUpdate_alpha {S : Type} (ops : StrengthOps S) (fresh : S)
    (p : ChargeCycle) (rho : ℕ → Option ℕ) (s : EncState S) (a : ℕ) :
    (fxUpdate ops fresh p rho s a).alpha = (s a).alpha := rfl

/-- The prune-and-sprout phase leaves the fire tracker untouched. -/
theorem fxUpdate_fire_tracker {S : Type} (ops : StrengthOps S) (fresh : S)
    (p : ChargeCycle) (rho : ℕ → Option ℕ) (s : EncState S) (a : ℕ) :
    (fxUpdate ops fresh p rho s a).fire_tracker = (s a).fire_tracker := rfl

/-- The prune-and-sprout phase leaves the internal charge untouched. -/
theorem fxUpdate_internal_charge {S : Type} (ops : StrengthOps S) (fresh : S)
    (p : ChargeCycle) (rho : ℕ → Option ℕ) (s : EncState S) (a : ℕ) :
    (fxUpdate ops fresh p rho s a).internal_charge = (s a).internal_charge := rfl

/-- The prune-and-sprout phase leaves the fire threshold untouched. -/
theorem fxUpdate_fire_threshold {S : Type} (ops : StrengthOps S) (fresh : S)
    (p : ChargeCycle) (rho : ℕ → Option ℕ) (s : EncState S) (a : ℕ) :
    (fxUpdate ops fresh p rho s a).fire_threshold = (s a).fire_threshold := rfl

/-- C9: the per-cycle sensory fire decision is total (the modulo is never
evaluated with a zero divisor), holds exactly when the period is non-zero
and divides the cycle count, is always false for period 0, and drives the
ema update, the tracker update and the emitted impulses of the sensory
neuron in the cycle model. -/
theorem c9_sensory_fire_iff (period cnt : ℕ) (S : Type) (ops : StrengthOps S)
    (fresh : S) (rho : ℕ → Option ℕ) (s : EncState S) (a : ℕ) (p : ChargeCycle) :
    sensoryFireDecision period cnt = some (sensoryFires period cnt) ∧
    (sensoryFires period cnt = true ↔ period ≠ 0 ∧ cnt % period = 0) ∧
    (period = 0 → sensoryFires period cnt = false) ∧
    ((s a).kind = NKind.sensory period →
      (localFinal cnt p ops fresh rho s a).ema =
        emaStep (s a).alpha (sensoryFires period cnt) (s a).ema ∧
      (localFinal cnt p ops fresh rho s a).fire_tracker =
        (s a).fire_tracker.set_tracker p (sensoryFires period cnt) ∧
      stepImpulses cnt p ops fresh rho s a =
        (if sensoryFires period cnt then
          impulsesOf ops (fxUpdate ops fresh p rho s a) else [])) := by
  refine ⟨?_, ?_, ?_, ?_⟩
  · by_cases hp : period = 0 <;>
      simp [sensoryFireDecision, checkedMod, sensoryFires, hp]
  · simp [sensoryFires, Bool.and_eq_true, bne_iff_ne, beq_iff_eq]
  · intro hp; simp [sensoryFires, hp]
  · intro hk
    have hkind : (fxUpdate ops fresh p rho s a).kind = NKind.sensory period := hk
    refine ⟨?_, ?_, ?_⟩
    · simp only [localFinal, hk, firesOf, hkind, fxUpdate_alpha, fxUpdate_ema]
    · simp only [localFinal, hk, firesOf, hkind, fxUpdate_fire_tracker]
    · simp only [stepImpulses, hk, firesOf, hkind]

/-- C9 witness: the fire condition at period 0 and a sensory neuron built
over the EmStrength state. -/
def sensoryNeuronW : Neuron EmStrength :=
  { kind := NKind.sensory 0, internal_charge := InternalCharge.new,
    fire_threshold := 1, fire_tracker := FireTracker.new,
    max_plastic_synapses := 2, plastic_synapses := [], static_synapses := [],
    synapse_type_threshold := 1, ema := 0, alpha := 1/2 }

/-- C9 witness: the theorem applied at period 0, cycle count 5, and the
constant arena of concrete sensory neurons, with the kind hypothesis
discharged by evaluation. -/
theorem c9_sensory_fire_iff_witness :
    ((fun _ => sensoryNeuronW : EncState EmStrength) 0).kind = NKind.sensory 0 ∧
    ((localFinal 5 ChargeCycle.Even emStrengthOps
        { strength := 1, max_value := 2, weakness_threshold := 0, alpha := 1/2 }
        (fun _ => none) (fun _ => sensoryNeuronW) 0).ema =
      emaStep ((fun _ => sensoryNeuronW : EncState EmStrength) 0).alpha
        (sensoryFires 0 5) ((fun _ => sensoryNeuronW : EncState EmStrength) 0).ema ∧
     (localFinal 5 ChargeCycle.Even emStrengthOps
        { strength := 1, max_value := 2, weakness_threshold := 0, alpha := 1/2 }
        (fun _ => none) (fun _ => sensoryNeuronW) 0).fire_tracker =
      ((fun _ => sensoryNeuronW : EncState EmStrength) 0).fire_tracker.set_tracker
        ChargeCycle.Even (sensoryFires 0 5) ∧
     stepImpulses 5 ChargeCycle.Even emStrengthOps
        { strength := 1, max_value := 2, weakness_threshold := 0, alpha := 1/2 }
        (fun _ => none) (fun _ => sensoryNeuronW) 0 =
      (if sensoryFires 0 5 then
        impulsesOf emStrengthOps
          (fxUpdate emStrengthOps
            { strength := 1, max_value := 2, weakness_threshold := 0, alpha := 1/2 }
            ChargeCycle.Even (fun _ => none) (fun _ => sensoryNeuronW) 0)
       else [])) :=
  ⟨rfl,
   (c9_sensory_fire_iff 0 5 EmStrength emStrengthOps
      { strength := 1, max_value := 2, weakness_threshold := 0, alpha := 1/2 }
      (fun _ => none) (fun _ => sensoryNeuronW) 0 ChargeCycle.Even).2.2.2 rfl⟩

/-- The total impulse a list of deliveries sends to one target. -/
def listTotal (l : List (ℕ × ℚ)) (x : ℕ) : ℚ :=
  (l.map (fun tv => if tv.1 = x then tv.2 else 0)).sum

/-- Incrementing the next-parity slot by zero is the identity. -/
theorem incr_next_charge_zero (ch : InternalCharge) (p : ChargeCycle) :
    ch.incr_next_charge p 0 = ch := by
  cases p <;> simp [InternalCharge.incr_next_charge, ChargeCycle.next_cycle]

/-- Two increments of the next-parity slot merge into their sum. -/
theorem incr_next_charge_incr (ch : InternalCharge) (p : ChargeCycle) (v w : ℚ) :
    (ch.incr_next_charge p v).incr_next_charge p w =
      ch.incr_next_charge p (v + w) := by
  cases p <;> simp [InternalCharge.incr_next_charge, ChargeCycle.next_cycle, add_assoc]

/-- Incrementing the next-parity slot does not change the current-parity
read. -/
theorem get_charge_incr_next (ch : InternalCharge) (p : ChargeCycle) (v : ℚ) :
    (ch.incr_next_charge p v).get_charge p = ch.get_charge p := by
  cases p <;> rfl

/-- Zeroing the current-parity slot commutes with incrementing the
next-parity slot: the two slots are distinct. -/
theorem reset_charge_incr_next (ch : InternalCharge) (p : ChargeCycle) (v : ℚ) :
    (ch.incr_next_charge p v).reset_charge p =
      (ch.reset_charge p).incr_next_charge p v := by
  cases p <;> rfl

/-- Delivering a zero impulse is the identity on a neuron record. -/
theorem applyCharge_zero {S : Type} (p : ChargeCycle) (n : Neuron S) :
    applyCharge p 0 n = n := by
  simp [applyCharge, incr_next_charge_zero]

/-- Two deliveries merge into the delivery of the sum. -/
theorem applyCharge_applyCharge {S : Type} (p : ChargeCycle) (v w : ℚ)
    (n : Neuron S) :
    applyCharge p w (applyCharge p v n) = applyCharge p (v + w) n := by
  simp [applyCharge, incr_next_charge_incr]

/-- A delivery leaves every field other than the internal charge unchanged,
and the current-parity charge read as well. -/
theorem applyCharge_kind {S : Type} (p : ChargeCycle) (v : ℚ) (n : Neuron S) :
    (applyCharge p v n).kind = n.kind := rfl

/-- A delivery does not change the fire tracker. -/
theorem applyCharge_fire_tracker {S : Type} (p : ChargeCycle) (v : ℚ) (n : Neuron S) :
    (applyCharge p v n).fire_tracker = n.fire_tracker := rfl

/-- A delivery does not change the current-parity charge read. -/
theorem applyCharge_get_charge {S : Type} (p : ChargeCycle) (v : ℚ) (n : Neuron S) :
    (applyCharge p v n).internal_charge.get_charge p =
      n.internal_charge.get_charge p :=
  get_charge_incr_next n.internal_charge p v

/-- A delivery does not change the emitted impulses of a record. -/
theorem impulsesOf_applyCharge {S : Type} (ops : StrengthOps S) (p : ChargeCycle)
    (v : ℚ) (n : Neuron S) :
    impulsesOf ops (applyCharge p v n) = impulsesOf ops n := rfl

/-- Pointwise description of a batch of deliveries: each arena slot simply
receives the total impulse addressed to it. -/
theorem applyImpulses_apply {S : Type} (p : ChargeCycle) (l : List (ℕ × ℚ)) :
    ∀ (s : EncState S) (x : ℕ),
      applyImpulses p s l x = applyCharge p (listTotal l x) (s x) := by
  induction l with
  | nil =>
      intro s x
      simp [applyImpulses, listTotal, applyCharge_zero]
  | cons tv l ih =>
      intro s x
      have hstep : applyImpulses p s (tv :: l) = applyImpulses p (deliver p s tv) l := rfl
      rw [hstep, ih (deliver p s tv) x]
      have hd : deliver p s tv x =
          applyCharge p (if tv.1 = x then tv.2 else 0) (s x) := by
        by_cases hx : tv.1 = x
        · subst hx
          simp [deliver, Function.update_same]
        · simp [deliver, Function.update_noteq (Ne.symm hx), applyCharge_zero, hx]
      rw [hd, applyCharge_applyCharge]
      simp [listTotal]

/-- Pointwise description of one visit of the cycle loop: the visited slot
is replaced by the record after its per-cycle procedure, and every slot
receives the total impulse addressed to it. -/
theorem runStep_apply {S : Type} (cnt : ℕ) (p : ChargeCycle) (ops : StrengthOps S)
    (fresh : S) (rho : ℕ → Option ℕ) (s : EncState S) (a x : ℕ) :
    runStep cnt p ops fresh rho s a x =
      applyCharge p (listTotal (stepImpulses cnt p ops fresh rho s a) x)
        (Function.update s a (localFinal cnt p ops fresh rho s a) x) := by
  unfold runStep
  exact applyImpulses_apply p _ _ x

/-- Writing the tracker for the current parity does not change what
fired_on_prev_cycle reads at that parity: the read looks at the other
slot. -/
theorem set_tracker_preserves_prev (t : FireTracker) (p : ChargeCycle) (f : Bool) :
    (t.set_tracker p f).fired_on_prev_cycle p = t.fired_on_prev_cycle p := by
  cases p <;> rfl

/-- The record laid down by the per-cycle procedure carries the tracker of
the original record written for the current parity. -/
theorem localFinal_fire_tracker {S : Type} (cnt : ℕ) (p : ChargeCycle)
    (ops : StrengthOps S) (fresh : S) (rho : ℕ → Option ℕ) (s : EncState S) (a : ℕ) :
    (localFinal cnt p ops fresh rho s a).fire_tracker =
      (s a).fire_tracker.set_tracker p
        (firesOf cnt p
          (match (s a).kind with
           | NKind.actuator => s a
           | _ => fxUpdate ops fresh p rho s a)) := by
  cases hkind : (s a).kind <;>
    simp only [localFinal, hkind, fxUpdate_fire_tracker]

/-- The previous-cycle view of the arena is invariant under a visit of the
cycle loop: deliveries do not touch trackers, and the tracker write of the
visited neuron touches only the current-parity slot. -/
theorem trackView_runStep {S : Type} (cnt : ℕ) (p : ChargeCycle)
    (ops : StrengthOps S) (fresh : S) (rho : ℕ → Option ℕ) (s : EncState S)
    (b t : ℕ) :
    trackView p (runStep cnt p ops fresh rho s b) t = trackView p s t := by
  unfold trackView
  rw [runStep_apply, applyCharge_fire_tracker]
  by_cases hb : t = b
  · subst hb
    rw [Function.update_same, localFinal_fire_tracker,
      set_tracker_preserves_prev]
  · rw [Function.update_noteq hb]

/-- A delivery does not change the fire threshold. -/
theorem applyCharge_fire_threshold {S : Type} (p : ChargeCycle) (v : ℚ)
    (n : Neuron S) :
    (applyCharge p v n).fire_threshold = n.fire_threshold := rfl

/-- The internal charge of a record after a delivery. -/
theorem applyCharge_internal_charge {S : Type} (p : ChargeCycle) (v : ℚ)
    (n : Neuron S) :
    (applyCharge p v n).internal_charge =
      n.internal_charge.incr_next_charge p v := rfl

/-- The fire decision is blind to deliveries: it reads only the
current-parity slot, the threshold and the kind. -/
theorem firesOf_applyCharge {S : Type} (cnt : ℕ) (p : ChargeCycle) (v : ℚ)
    (n : Neuron S) :
    firesOf cnt p (applyCharge p v n) = firesOf cnt p n := by
  cases hk : n.kind <;>
    simp [firesOf, applyCharge_kind, hk, applyCharge_get_charge,
      applyCharge_fire_threshold]

/-- Congruence of the per-neuron procedure: if an arena differs from
another only by a pending delivery at the visited neuron and agrees on the
previous-cycle view of every neuron, the procedure computes the same
synapse lists, the same impulses and the same record up to that pending
delivery. -/
theorem stepCongr {S : Type} (cnt : ℕ) (p : ChargeCycle) (ops : StrengthOps S)
    (fresh : S) (rho : ℕ → Option ℕ) (s s2 : EncState S) (a : ℕ) (v : ℚ)
    (hTrack : ∀ t, trackView p s2 t = trackView p s t)
    (hA : s2 a = applyCharge p v (s a)) :
    fxUpdate ops fresh p rho s2 a = applyCharge p v (fxUpdate ops fresh p rho s a) ∧
    stepImpulses cnt p ops fresh rho s2 a = stepImpulses cnt p ops fresh rho s a ∧
    localFinal cnt p ops fresh rho s2 a =
      applyCharge p v (localFinal cnt p ops fresh rho s a) := by
  have htv : trackView p s2 = trackView p s := funext hTrack
  have hfx : fxUpdate ops fresh p rho s2 a =
      applyCharge p v (fxUpdate ops fresh p rho s a) := by
    unfold fxUpdate
    rw [hA, htv]
    rfl
  have hk2 : (s2 a).kind = (s a).kind := by rw [hA]; rfl
  have himp : stepImpulses cnt p ops fresh rho s2 a =
      stepImpulses cnt p ops fresh rho s a := by
    cases hk : (s a).kind with
    | sensory period =>
        simp only [stepImpulses, hk2, hk, hfx, firesOf_applyCharge,
          impulsesOf_applyCharge]
    | plastic =>
        simp only [stepImpulses, hk2, hk, hfx, firesOf_applyCharge,
          impulsesOf_applyCharge]
    | actuator => simp only [stepImpulses, hk2, hk]
  refine ⟨hfx, himp, ?_⟩
  cases hk : (s a).kind with
  | sensory period =>
      simp only [localFinal, hk2, hk, hfx, firesOf_applyCharge]
      rfl
  | plastic =>
      simp only [localFinal, hk2, hk, hfx, firesOf_applyCharge,
        applyCharge_internal_charge, reset_charge_incr_next]
      rfl
  | actuator =>
      simp only [localFinal, hA, applyCharge_kind, hk, firesOf_applyCharge,
        applyCharge_internal_charge, reset_charge_incr_next]
      rfl

/-- Visits of two neurons commute: the two-slot charge discipline makes the
result independent of which neuron of the pair runs first. -/
theorem runStep_comm {S : Type} (cnt : ℕ) (p : ChargeCycle) (ops : StrengthOps S)
    (fresh : S) (rho : ℕ → Option ℕ) (s : EncState S) (a b : ℕ) :
    runStep cnt p ops fresh rho (runStep cnt p ops fresh rho s a) b =
    runStep cnt p ops fresh rho (runStep cnt p ops fresh rho s b) a := by
  by_cases hab : a = b
  · subst hab; rfl
  · have hSA : (runStep cnt p ops fresh rho s b) a =
        applyCharge p (listTotal (stepImpulses cnt p ops fresh rho s b) a) (s a) := by
      rw [runStep_apply, Function.update_noteq hab]
    have hSB : (runStep cnt p ops fresh rho s a) b =
        applyCharge p (listTotal (stepImpulses cnt p ops fresh rho s a) b) (s b) := by
      rw [runStep_apply, Function.update_noteq (Ne.symm hab)]
    obtain ⟨_, himpA, hlocA⟩ :=
      stepCongr cnt p ops fresh rho s (runStep cnt p ops fresh rho s b) a
        (listTotal (stepImpulses cnt p ops fresh rho s b) a)
        (fun t => trackView_runStep cnt p ops fresh rho s b t) hSA
    obtain ⟨_, himpB, hlocB⟩ :=
      stepCongr cnt p ops fresh rho s (runStep cnt p ops fresh rho s a) b
        (listTotal (stepImpulses cnt p ops fresh rho s a) b)
        (fun t => trackView_runStep cnt p ops fresh rho s a t) hSB
    funext x
    rw [runStep_apply, runStep_apply, himpA, himpB, hlocA, hlocB]
    by_cases hxb : x = b
    · subst hxb
      rw [Function.update_same, Function.update_noteq (Ne.symm hab),
        runStep_apply, Function.update_same,
        applyCharge_applyCharge, applyCharge_applyCharge, add_comm]
    · by_cases hxa : x = a
      · subst hxa
        rw [Function.update_noteq hab, Function.update_same,
          runStep_apply, Function.update_same,
          applyCharge_applyCharge, applyCharge_applyCharge, add_comm]
      · rw [Function.update_noteq hxb, Function.update_noteq hxa,
          runStep_apply, runStep_apply,
          Function.update_noteq hxa, Function.update_noteq hxb,
          applyCharge_applyCharge, applyCharge_applyCharge, add_comm]

/-- Folding the visit over any permutation of a list of neurons yields the
same arena. -/
theorem runStep_foldl_perm {S : Type} (cnt : ℕ) (p : ChargeCycle)
    (ops : StrengthOps S) (fresh : S) (rho : ℕ → Option ℕ) :
    ∀ {l l2 : List ℕ}, l.Perm l2 → ∀ s : EncState S,
      l.foldl (runStep cnt p ops fresh rho) s =
      l2.foldl (runStep cnt p ops fresh rho) s := by
  intro l l2 hperm
  induction hperm with
  | nil => intro s; rfl
  | cons x _ ih => intro s; simp only [List.foldl_cons]; exact ih _
  | swap x y l =>
      intro s
      simp only [List.foldl_cons]
      rw [runStep_comm]
  | trans _ _ ih1 ih2 => intro s; rw [ih1 s, ih2 s]

/-- C3: for any permutation of the visit order inside the sensory pass and
inside the receiver pass of run_cycle, the arena after the cycle is
identical; firing writes only next-parity slots while reads and the zeroing
touch only current-parity slots, so each firing neuron contributes exactly
once to each target regardless of order. -/
theorem c3_order_independence (S : Type) (ops : StrengthOps S) (fresh : S)
    (rho : ℕ → Option ℕ) (cnt : ℕ) (s : EncState S)
    (l4 l4b l5 l5b : List ℕ) (h4 : l4.Perm l4b) (h5 : l5.Perm l5b) :
    l5.foldl (runStep cnt (ChargeCycle.ofCount cnt) ops fresh rho)
      (l4.foldl (runStep cnt (ChargeCycle.ofCount cnt) ops fresh rho) s) =
    l5b.foldl (runStep cnt (ChargeCycle.ofCount cnt) ops fresh rho)
      (l4b.foldl (runStep cnt (ChargeCycle.ofCount cnt) ops fresh rho) s) := by
  rw [runStep_foldl_perm cnt (ChargeCycle.ofCount cnt) ops fresh rho h4 s,
    runStep_foldl_perm cnt (ChargeCycle.ofCount cnt) ops fresh rho h5
      (l4b.foldl (runStep cnt (ChargeCycle.ofCount cnt) ops fresh rho) s)]

/-- A concrete arena for the order-independence witness: neuron 0 is a
sensory neuron of period 1 with a plastic synapse into neuron 2, neurons 2
and 3 are receivers, everything over the EmStrength state. -/
def arenaW : EncState EmStrength := fun i =>
  if i = 0 then
    { kind := NKind.sensory 1, internal_charge := InternalCharge.new,
      fire_threshold := 1, fire_tracker := FireTracker.new,
      max_plastic_synapses := 2,
      plastic_synapses :=
        [{ strength := { strength := 1, max_value := 2,
                         weakness_threshold := 0, alpha := 1/2 },
           synaptic_type := SynapticType.Excitatory, target := 2 }],
      static_synapses := [], synapse_type_threshold := 1, ema := 0,
      alpha := 1/2 }
  else if i = 3 then
    { kind := NKind.actuator, internal_charge := InternalCharge.new,
      fire_threshold := 1, fire_tracker := FireTracker.new,
      max_plastic_synapses := 2, plastic_synapses := [], static_synapses := [],
      synapse_type_threshold := 1, ema := 0, alpha := 1/2 }
  else
    { kind := NKind.plastic, internal_charge := InternalCharge.new,
      fire_threshold := 1, fire_tracker := FireTracker.new,
      max_plastic_synapses := 2, plastic_synapses := [], static_synapses := [],
      synapse_type_threshold := 1, ema := 0, alpha := 1/2 }

/-- C3 witness: the order-independence theorem applied to the concrete
arena, with the sensory pass visiting neurons 0 and 1 and the receiver pass
visiting neurons 2 and 3, each pass permuted. -/
theorem c3_order_independence_witness :
    List.foldl (runStep 1 (ChargeCycle.ofCount 1) emStrengthOps
        { strength := 1, max_value := 2, weakness_threshold := 0, alpha := 1/2 }
        (fun _ => none))
      (List.foldl (runStep 1 (ChargeCycle.ofCount 1) emStrengthOps
          { strength := 1, max_value := 2, weakness_threshold := 0, alpha := 1/2 }
          (fun _ => none)) arenaW [0, 1]) [2, 3] =
    List.foldl (runStep 1 (ChargeCycle.ofCount 1) emStrengthOps
        { strength := 1, max_value := 2, weakness_threshold := 0, alpha := 1/2 }
        (fun _ => none))
      (List.foldl (runStep 1 (ChargeCycle.ofCount 1) emStrengthOps
          { strength := 1, max_value := 2, weakness_threshold := 0, alpha := 1/2 }
          (fun _ => none)) arenaW [1, 0]) [3, 2] :=
  c3_order_independence EmStrength emStrengthOps
    { strength := 1, max_value := 2, weakness_threshold := 0, alpha := 1/2 }
    (fun _ => none) 1 arenaW [0, 1] [1, 0] [2, 3] [3, 2]
    (List.Perm.swap 1 0 []) (List.Perm.swap 3 2 [])

/-- Successor behaviour of next_sensory_loc expressed through the row-major
index k = y * L + x of the current location: while the index stays below
the plane size the successor carries the coordinates of index k + 1, and at
the last cell the enumeration stops. -/
theorem next_sensory_loc_index (g : BoxEcp) (hL : 1 ≤ g.side_length) (k : ℕ)
    (loc : List ℤ)
    (h0 : loc.get? 0 = some ((k % g.side_length : ℕ) : ℤ))
    (h1 : loc.get? 1 = some ((k / g.side_length : ℕ) : ℤ))
    (hk : k < g.side_length * g.side_length) :
    g.next_sensory_loc loc =
      if k + 1 < g.side_length * g.side_length then
        some ([(((k + 1) % g.side_length : ℕ) : ℤ),
               (((k + 1) / g.side_length : ℕ) : ℤ)],
          BoxEcp.loc_hash [(((k + 1) % g.side_length : ℕ) : ℤ),
            (((k + 1) / g.side_length : ℕ) : ℤ)])
      else none := by
  simp only [BoxEcp.next_sensory_loc, h0, h1]
  have hL0 : 0 < g.side_length := hL
  have hdm := Nat.div_add_mod k g.side_length
  have hmlt : k % g.side_length < g.side_length := Nat.mod_lt _ hL0
  have hdlt : k / g.side_length < g.side_length := Nat.div_lt_of_lt_mul hk
  by_cases hx : ((k % g.side_length : ℕ) : ℤ) = ((g.side_length - 1 : ℕ) : ℤ)
  · have hxn : k % g.side_length = g.side_length - 1 := by exact_mod_cast hx
    by_cases hy : ((k / g.side_length : ℕ) : ℤ) = ((g.side_length - 1 : ℕ) : ℤ)
    · have hyn : k / g.side_length = g.side_length - 1 := by exact_mod_cast hy
      obtain ⟨m, hm⟩ : ∃ m, g.side_length = m + 1 := ⟨g.side_length - 1, by omega⟩
      have hkeq : k + 1 = g.side_length * g.side_length := by
        have hk2 : g.side_length * (g.side_length - 1) + (g.side_length - 1) = k := by
          have h5 := hdm
          rw [hxn, hyn] at h5
          exact h5
        rw [hm] at hk2 ⊢
        simp only [Nat.add_sub_cancel] at hk2
        rw [← hk2]; ring
      rw [if_pos hx, if_pos hy, if_neg (by omega)]
    · have hyn : k / g.side_length ≠ g.side_length - 1 := fun hc => hy (by
        rw [hc])
      have h1n : k % g.side_length + 1 = g.side_length := by omega
      have heq : 0 + g.side_length * (k / g.side_length + 1) = k + 1 := by
        have hP : g.side_length * (k / g.side_length + 1) =
            g.side_length * (k / g.side_length) + g.side_length := by ring
        rw [hP]
        linarith [hdm]
      have hnew : (k + 1) / g.side_length = k / g.side_length + 1 ∧
          (k + 1) % g.side_length = 0 :=
        (Nat.div_mod_unique hL0).mpr ⟨heq, hL0⟩
      have hdq : k / g.side_length + 1 < g.side_length := by omega
      have hklt : k + 1 < g.side_length * g.side_length := by
        have h3 : g.side_length * (k / g.side_length + 1) <
            g.side_length * g.side_length := mul_lt_mul_of_pos_left hdq hL0
        linarith [heq]
      rw [if_pos hx, if_neg hy, if_pos hklt, hnew.1, hnew.2]
      push_cast
      rfl
  · have hxn : k % g.side_length ≠ g.side_length - 1 := fun hc => hx (by
      rw [hc])
    have hlt : k % g.side_length + 1 < g.side_length := by omega
    have heq : (k % g.side_length + 1) + g.side_length * (k / g.side_length) =
        k + 1 := by linarith [hdm]
    have hnew : (k + 1) / g.side_length = k / g.side_length ∧
        (k + 1) % g.side_length = k % g.side_length + 1 :=
      (Nat.div_mod_unique hL0).mpr ⟨heq, hlt⟩
    have hklt : k + 1 < g.side_length * g.side_length := by
      have h2 : k / g.side_length + 1 ≤ g.side_length := hdlt
      have h3 : g.side_length * (k / g.side_length + 1) ≤
          g.side_length * g.side_length := Nat.mul_le_mul_left _ h2
      have h4 : g.side_length * (k / g.side_length + 1) =
          g.side_length * (k / g.side_length) + g.side_length := by ring
      linarith [heq, hlt]
    rw [if_neg hx, if_pos hklt, hnew.1, hnew.2]
    push_cast
    rfl

/-- The whole tail of the sensory enumeration from the location with
row-major index k: the walk visits exactly the indices from k to the end of
the plane, in order. -/
theorem sensoryEnumAux_spine (g : BoxEcp) (hL : 1 ≤ g.side_length) (N : ℕ)
    (hN : N = g.side_length * g.side_length) :
    ∀ (fuel k : ℕ) (loc : List ℤ),
      k < N →
      fuel = N - k →
      loc.get? 0 = some ((k % g.side_length : ℕ) : ℤ) →
      loc.get? 1 = some ((k / g.side_length : ℕ) : ℤ) →
      sensoryEnumAux g fuel loc =
        loc :: (List.range' (k + 1) (N - (k + 1))).map
          (fun j => [((j % g.side_length : ℕ) : ℤ),
                     ((j / g.side_length : ℕ) : ℤ)]) := by
  intro fuel
  induction fuel with
  | zero =>
      intro k loc hk hf h0 h1
      omega
  | succ n ih =>
      intro k loc hk hf h0 h1
      rw [sensoryEnumAux]
      rw [next_sensory_loc_index g hL k loc h0 h1 (by omega)]
      by_cases hk1 : k + 1 < N
      · rw [if_pos (by omega)]
        show loc :: sensoryEnumAux g n
            [(((k + 1) % g.side_length : ℕ) : ℤ),
             (((k + 1) / g.side_length : ℕ) : ℤ)] = _
        rw [ih (k + 1)
          [(((k + 1) % g.side_length : ℕ) : ℤ),
           (((k + 1) / g.side_length : ℕ) : ℤ)] hk1 (by omega) rfl rfl]
        have hrange : N - (k + 1) = (N - (k + 2)) + 1 := by omega
        rw [hrange, List.range'_succ, List.map_cons]
      · rw [if_neg (by omega)]
        have hrange : N - (k + 1) = 0 := by omega
        rw [hrange]
        rfl

/-- C4 amended: for every box of positive side length L, the sensory
enumeration yields exactly L squared positions: the first is the three
coordinate location with z equal to minus one, and the position of
row-major index j (for j from 1) is the two coordinate location of x equal
to j mod L and y equal to j div L, so the walk is row-major over the plane
but drops the z coordinate after the first position and does not stop at
numSensory. -/
theorem c4_sensory_enum_amended (g : BoxEcp) (hL : 1 ≤ g.side_length) :
    sensoryEnum g =
      [0, 0, -1] ::
        (List.range' 1 (g.side_length * g.side_length - 1)).map
          (fun j => [((j % g.side_length : ℕ) : ℤ),
                     ((j / g.side_length : ℕ) : ℤ)]) ∧
    (sensoryEnum g).length = g.side_length * g.side_length := by
  have hsq : g.side_length ^ 2 = g.side_length * g.side_length := by ring
  have h0 : ([0, 0, -1] : List ℤ).get? 0 =
      some ((0 % g.side_length : ℕ) : ℤ) := by simp
  have h1 : ([0, 0, -1] : List ℤ).get? 1 =
      some ((0 / g.side_length : ℕ) : ℤ) := by simp
  have hkpos : 0 < g.side_length * g.side_length :=
    Nat.mul_pos hL hL
  have hmain : sensoryEnum g =
      [0, 0, -1] ::
        (List.range' 1 (g.side_length * g.side_length - 1)).map
          (fun j => [((j % g.side_length : ℕ) : ℤ),
                     ((j / g.side_length : ℕ) : ℤ)]) := by
    unfold sensoryEnum BoxEcp.first_sensory_loc
    rw [hsq]
    exact sensoryEnumAux_spine g hL (g.side_length * g.side_length) rfl
      (g.side_length * g.side_length) 0 [0, 0, -1] hkpos (by omega) h0 h1
  refine ⟨hmain, ?_⟩
  rw [hmain]
  simp only [List.length_cons, List.length_map, List.length_range']
  omega

/-- C4 witness for the amended enumeration shape: the side-2 box, where the
enumeration is the first location followed by the three remaining plane
cells in row-major order. -/
theorem c4_sensory_enum_amended_witness :
    (sensoryEnum box821 =
      [0, 0, -1] ::
        (List.range' 1 (box821.side_length * box821.side_length - 1)).map
          (fun j => [((j % box821.side_length : ℕ) : ℤ),
                     ((j / box821.side_length : ℕ) : ℤ)]) ∧
    (sensoryEnum box821).length = box821.side_length * box821.side_length) :=
  c4_sensory_enum_amended box821 (by decide)
